import Mathlib

/-!
# Verification of the signed-payload verifier in `src/server.js`

Shallow embedding of the Telegram-initData verifier `validateTelegramData`
and of the request handlers that consume it (`/api/is-admin`,
`/api/report`, `PUT /api/report/:id`).

Bytes are `Nat` values below 256; 32-bit machine words are `Nat` values
reduced modulo `2 ^ 32` explicitly.  Node's `crypto` primitives
(`createHash('sha256')`, `createHmac('sha256', k)`) are embedded as
executable SHA-256 / HMAC-SHA-256 over byte lists, following FIPS 180-4
and RFC 2104.
-/

namespace SSK

/-- Reduce to a 32-bit machine word. -/
def w32 (x : Nat) : Nat := x % 4294967296

/-- 32-bit right rotation. -/
def rotr (n x : Nat) : Nat := w32 ((x >>> n) ||| (x <<< (32 - n)))

/-- 32-bit bitwise complement. -/
def wnot (x : Nat) : Nat := 4294967295 - w32 x

def ch (e f g : Nat) : Nat := (e &&& f) ^^^ (wnot e &&& g)

def maj (a b c : Nat) : Nat := (a &&& b) ^^^ (a &&& c) ^^^ (b &&& c)

def bigSigma0 (x : Nat) : Nat := rotr 2 x ^^^ rotr 13 x ^^^ rotr 22 x

def bigSigma1 (x : Nat) : Nat := rotr 6 x ^^^ rotr 11 x ^^^ rotr 25 x

def smallSigma0 (x : Nat) : Nat := rotr 7 x ^^^ rotr 18 x ^^^ (x >>> 3)

def smallSigma1 (x : Nat) : Nat := rotr 17 x ^^^ rotr 19 x ^^^ (x >>> 10)

/-- The SHA-256 round constants (FIPS 180-4 §4.2.2). -/
def shaK : List Nat :=
  [1116352408, 1899447441, 3049323471, 3921009573, 961987163, 1508970993,
   2453635748, 2870763221, 3624381080, 310598401, 607225278, 1426881987,
   1925078388, 2162078206, 2614888103, 3248222580, 3835390401, 4022224774,
   264347078, 604807628, 770255983, 1249150122, 1555081692, 1996064986,
   2554220882, 2821834349, 2952996808, 3210313671, 3336571891, 3584528711,
   113926993, 338241895, 666307205, 773529912, 1294757372, 1396182291,
   1695183700, 1986661051, 2177026350, 2456956037, 2730485921, 2820302411,
   3259730800, 3345764771, 3516065817, 3600352804, 4094571909, 275423344,
   430227734, 506948616, 659060556, 883997877, 958139571, 1322822218,
   1537002063, 1747873779, 1955562222, 2024104815, 2227730452, 2361852424,
   2428436474, 2756734187, 3204031479, 3329325298]

/-- The SHA-256 initial hash value (FIPS 180-4 §5.3.3). -/
def shaH0 : List Nat :=
  [1779033703, 3144134277, 1013904242, 2773480762,
   1359893119, 2600822924, 528734635, 1541459225]

/-- Big-endian packing of bytes into 32-bit words (tail shorter than 4 dropped;
the padded message length is a multiple of 4). -/
def bytesToWords : List Nat → List Nat
  | a :: b :: c :: d :: rest =>
      (((a <<< 24) ||| (b <<< 16)) ||| ((c <<< 8) ||| d)) :: bytesToWords rest
  | _ => []

/-- Big-endian 4-byte rendering of a 32-bit word. -/
def wordToBytes (x : Nat) : List Nat :=
  [(x >>> 24) &&& 255, (x >>> 16) &&& 255, (x >>> 8) &&& 255, x &&& 255]

/-- One step of the message-schedule extension; `r` is the schedule so far in
reverse order, so `r.getD 1 0` is `W[t-2]` and `r.getD 15 0` is `W[t-16]`. -/
def schedStep (r : List Nat) : List Nat :=
  w32 (smallSigma1 (r.getD 1 0) + r.getD 6 0 +
       smallSigma0 (r.getD 14 0) + r.getD 15 0) :: r

def schedRec : Nat → List Nat → List Nat
  | 0, r => r
  | n + 1, r => schedRec n (schedStep r)

/-- The full 64-word message schedule of a 16-word block. -/
def schedule (block : List Nat) : List Nat :=
  (schedRec 48 block.reverse).reverse

/-- One SHA-256 round: the state is the 8-word working variable list. -/
def shaRound (st : List Nat) (kw : Nat × Nat) : List Nat :=
  match st with
  | [a, b, c, d, e, f, g, h] =>
      let t1 := w32 (h + bigSigma1 e + ch e f g + kw.1 + kw.2)
      let t2 := w32 (bigSigma0 a + maj a b c)
      [w32 (t1 + t2), a, b, c, w32 (d + t1), e, f, g]
  | st => st

/-- Compress one 16-word block into the running 8-word hash state. -/
def compress (h : List Nat) (block : List Nat) : List Nat :=
  let st := (shaK.zip (schedule block)).foldl shaRound h
  h.zipWith (fun x y => w32 (x + y)) st

/-- Fold the compression function over the word stream, one 16-word block at
a time. -/
def compressAll (h : List Nat) : List Nat → List Nat
  | w0 :: w1 :: w2 :: w3 :: w4 :: w5 :: w6 :: w7 ::
    w8 :: w9 :: w10 :: w11 :: w12 :: w13 :: w14 :: w15 :: rest =>
      compressAll
        (compress h [w0, w1, w2, w3, w4, w5, w6, w7,
                     w8, w9, w10, w11, w12, w13, w14, w15]) rest
  | _ => h

/-- Big-endian 8-byte rendering of the bit length. -/
def lenBytes64 (bits : Nat) : List Nat :=
  [(bits >>> 56) &&& 255, (bits >>> 48) &&& 255, (bits >>> 40) &&& 255,
   (bits >>> 32) &&& 255, (bits >>> 24) &&& 255, (bits >>> 16) &&& 255,
   (bits >>> 8) &&& 255, bits &&& 255]

/-- SHA-256 padding: append `0x80`, zero bytes to 56 mod 64, then the 64-bit
big-endian bit length. -/
def shaPad (msg : List Nat) : List Nat :=
  msg ++ 128 :: List.replicate ((64 - (msg.length + 9) % 64) % 64) 0 ++
    lenBytes64 (msg.length * 8)

/-- SHA-256 of a byte list, as a 32-byte list. -/
def sha256 (msg : List Nat) : List Nat :=
  (compressAll shaH0 (bytesToWords (shaPad msg))).foldr
    (fun w acc => wordToBytes w ++ acc) []

/-- HMAC-SHA-256 (RFC 2104): block size 64 bytes. -/
def hmacSha256 (key msg : List Nat) : List Nat :=
  let k0 := if 64 < key.length then sha256 key else key
  let k := k0 ++ List.replicate (64 - k0.length) 0
  let ipadKey := k.map (fun b => b ^^^ 0x36)
  let opadKey := k.map (fun b => b ^^^ 0x5c)
  sha256 (opadKey ++ sha256 (ipadKey ++ msg))

/-- Lowercase hex digit of a value below 16. -/
def hexDigit (n : Nat) : Char :=
  if n < 10 then Char.ofNat (48 + n) else Char.ofNat (87 + n)

/-- Lowercase hex rendering of a byte list (`digest('hex')`). -/
def bytesToHex (bs : List Nat) : String :=
  ⟨bs.foldr (fun b acc => hexDigit (b / 16 % 16) :: hexDigit (b % 16) :: acc) []⟩

/-- UTF-8 encoding of a character as bytes. -/
def utf8Char (c : Char) : List Nat :=
  let n := c.toNat
  if n < 0x80 then [n]
  else if n < 0x800 then [0xc0 ||| (n >>> 6), 0x80 ||| (n &&& 0x3f)]
  else if n < 0x10000 then
    [0xe0 ||| (n >>> 12), 0x80 ||| ((n >>> 6) &&& 0x3f), 0x80 ||| (n &&& 0x3f)]
  else
    [0xf0 ||| (n >>> 18), 0x80 ||| ((n >>> 12) &&& 0x3f),
     0x80 ||| ((n >>> 6) &&& 0x3f), 0x80 ||| (n &&& 0x3f)]

/-- UTF-8 encoding of a string as bytes. -/
def strBytes (s : String) : List Nat :=
  s.data.foldr (fun c acc => utf8Char c ++ acc) []

/-!
## Locale-aware string comparison

`validateTelegramData` sorts with `a.localeCompare(b)`.  This models Node's
`String.prototype.localeCompare` under the default (root) ICU collation,
faithful on the ASCII range used by the claims: letters compare
case-insensitively at the primary level (with lowercase before uppercase at
the tertiary level), digits sort before letters, and remaining ASCII
characters sort before digits.  Non-ASCII characters are placed after the
ASCII letters by code point, an approximation never exercised by the claims.
-/

/-- Primary collation weight of a character. -/
def collPrimary (c : Char) : Nat :=
  let n := c.toNat
  if 97 ≤ n ∧ n ≤ 122 then 1000 + (n - 97)
  else if 65 ≤ n ∧ n ≤ 90 then 1000 + (n - 65)
  else if 48 ≤ n ∧ n ≤ 57 then 500 + (n - 48)
  else if n < 128 then 100 + n
  else 3000 + n

/-- Tertiary (case) collation weight: uppercase after lowercase. -/
def collTertiary (c : Char) : Nat :=
  if 65 ≤ c.toNat ∧ c.toNat ≤ 90 then 1 else 0

/-- Character comparison by (primary, tertiary) collation weights. -/
def collCharCmp (c d : Char) : Ordering :=
  (compare (collPrimary c) (collPrimary d)).then
    (compare (collTertiary c) (collTertiary d))

/-- Lexicographic extension of a character comparison to character lists. -/
def cmpChars (f : Char → Char → Ordering) : List Char → List Char → Ordering
  | [], [] => .eq
  | [], _ :: _ => .lt
  | _ :: _, [] => .gt
  | a :: as, b :: bs => (f a b).then (cmpChars f as bs)

/-- Model of `a.localeCompare(b)` as an `Ordering` (negative / zero /
positive return values mapped to `lt` / `eq` / `gt`). -/
def locCmp (s t : String) : Ordering := cmpChars collCharCmp s.data t.data

/-- Byte-wise ordinal string comparison (code-point order) — the ordering the
spec names in its canonicalization step. -/
def ordCmp (s t : String) : Ordering :=
  cmpChars (fun a b => compare a.toNat b.toNat) s.data t.data

/-!
## URLSearchParams

Model of `new URLSearchParams(initData)` per the WHATWG URL standard's
`application/x-www-form-urlencoded` parser: strip a leading `?`, split on
`&`, drop empty segments, split each segment at its first `=` (a segment
with no `=` gets the empty value), replace `+` by space, percent-decode.
Percent-decoding maps `%XY` directly to the character with code `16*X + Y`,
which is exact for ASCII byte sequences (multi-byte UTF-8 percent sequences
are not exercised by the claims). -/

def splitOnChar (sep : Char) (cur : List Char) : List Char → List (List Char)
  | [] => [cur.reverse]
  | c :: cs =>
      if c = sep then cur.reverse :: splitOnChar sep [] cs
      else splitOnChar sep (c :: cur) cs

def hexVal (c : Char) : Option Nat :=
  let n := c.toNat
  if 48 ≤ n ∧ n ≤ 57 then some (n - 48)
  else if 65 ≤ n ∧ n ≤ 70 then some (n - 55)
  else if 97 ≤ n ∧ n ≤ 102 then some (n - 87)
  else none

def pctDecode : List Char → List Char
  | '%' :: a :: b :: rest =>
      match hexVal a, hexVal b with
      | some x, some y => Char.ofNat (16 * x + y) :: pctDecode rest
      | _, _ => '%' :: pctDecode (a :: b :: rest)
  | c :: rest => c :: pctDecode rest
  | [] => []

/-- Decode one name or value component. -/
def decodeComp (cs : List Char) : String :=
  ⟨pctDecode (cs.map fun c => if c = '+' then ' ' else c)⟩

/-- Split a segment at its first `=`; `none` when there is no `=`. -/
def breakEq : List Char → List Char × Option (List Char)
  | [] => ([], none)
  | c :: cs =>
      if c = '=' then ([], some cs)
      else
        let r := breakEq cs
        (c :: r.1, r.2)

/-- Decode one nonempty segment into its name/value pair. -/
def parseSeg (seg : List Char) : Option (String × String) :=
  match seg with
  | [] => none
  | seg => some (decodeComp (breakEq seg).1, decodeComp ((breakEq seg).2.getD []))

/-- Split the query into segments and decode each nonempty one. -/
def parseSegs (cs : List Char) : List (String × String) :=
  (splitOnChar '&' [] cs).filterMap parseSeg

/-- The entry list of `new URLSearchParams(s)`, in insertion order. -/
def parseQS (s : String) : List (String × String) :=
  parseSegs (match s.data with
             | '?' :: rest => rest
             | cs => cs)

/-- Model of `urlParams.get(k)`: the first value under `k`, or `none` (JS `null`). -/
def qpGet (ps : List (String × String)) (k : String) : Option String :=
  (ps.find? fun p => p.1 == k).map (·.2)

/-- Model of `urlParams.delete(k)`: remove every entry named `k`. -/
def qpDelete (ps : List (String × String)) (k : String) : List (String × String) :=
  ps.filter fun p => p.1 != k

/-!
## JSON

Model of `JSON.parse`.  Numbers are kept as their source lexeme (every
number the claims touch is a small integer, so no floating-point semantics
are needed); strings, booleans, `null`, arrays and objects follow the JSON
grammar, including rejection of trailing garbage, of control characters in
strings, and of malformed escapes. -/

inductive Json where
  | null : Json
  | bool (b : Bool) : Json
  | num (lexeme : String) : Json
  | str (s : String) : Json
  | arr (elems : List Json) : Json
  | obj (fields : List (String × Json)) : Json

def isJsonWs (c : Char) : Bool := c = ' ' ∨ c = '\t' ∨ c = '\n' ∨ c = '\r'

def skipWs : List Char → List Char
  | [] => []
  | c :: cs => if isJsonWs c then skipWs cs else c :: cs

/-- Parse the body of a JSON string literal after the opening quote.
`acc` holds the decoded characters in reverse. -/
def strBody (acc : List Char) : List Char → Option (String × List Char)
  | [] => none
  | '"' :: rest => some (⟨acc.reverse⟩, rest)
  | '\\' :: 'u' :: a :: b :: c :: d :: rest =>
      match hexVal a, hexVal b, hexVal c, hexVal d with
      | some x, some y, some z, some w =>
          strBody (Char.ofNat (((x * 16 + y) * 16 + z) * 16 + w) :: acc) rest
      | _, _, _, _ => none
  | '\\' :: e :: rest =>
      match e with
      | '"' => strBody ('"' :: acc) rest
      | '\\' => strBody ('\\' :: acc) rest
      | '/' => strBody ('/' :: acc) rest
      | 'b' => strBody (Char.ofNat 8 :: acc) rest
      | 'f' => strBody (Char.ofNat 12 :: acc) rest
      | 'n' => strBody ('\n' :: acc) rest
      | 'r' => strBody (Char.ofNat 13 :: acc) rest
      | 't' => strBody ('\t' :: acc) rest
      | _ => none
  | c :: rest => if c.toNat < 32 then none else strBody (c :: acc) rest

/-- One or more decimal digits; returns them with the remaining input. -/
def takeDigits : List Char → List Char × List Char
  | [] => ([], [])
  | c :: cs =>
      if c.isDigit then
        let r := takeDigits cs
        (c :: r.1, r.2)
      else ([], c :: cs)

/-- Parse a JSON number lexeme: `-? (0 | [1-9][0-9]*) frac? exp?`. -/
def numLexeme (cs : List Char) : Option (List Char × List Char) :=
  let signed := match cs with
                | '-' :: rest => some (['-'], rest)
                | rest => some ([], rest)
  match signed with
  | some (sgn, rest) =>
      let intPart : Option (List Char × List Char) :=
        match rest with
        | '0' :: rest' => some (['0'], rest')
        | c :: rest' =>
            if c.isDigit then
              let r := takeDigits rest'
              some (c :: r.1, r.2)
            else none
        | [] => none
      match intPart with
      | none => none
      | some (ip, rest1) =>
          let fracPart : Option (List Char × List Char) :=
            match rest1 with
            | '.' :: rest2 =>
                match takeDigits rest2 with
                | ([], _) => none
                | (ds, rest3) => some ('.' :: ds, rest3)
            | rest2 => some ([], rest2)
          match fracPart with
          | none => none
          | some (fp, rest3) =>
              let expPart : Option (List Char × List Char) :=
                match rest3 with
                | e :: rest4 =>
                    if e = 'e' ∨ e = 'E' then
                      let r5 := match rest4 with
                                | '+' :: r => (['+'], r)
                                | '-' :: r => (['-'], r)
                                | r => ([], r)
                      match takeDigits r5.2 with
                      | ([], _) => none
                      | (ds, rest6) => some (e :: r5.1 ++ ds, rest6)
                    else some ([], e :: rest4)
                | [] => some ([], [])
              match expPart with
              | none => none
              | some (ep, rest7) => some (sgn ++ ip ++ fp ++ ep, rest7)
  | none => none

mutual

/-- Parse one JSON value; `fuel` bounds recursion depth. -/
def parseVal : Nat → List Char → Option (Json × List Char)
  | 0, _ => none
  | fuel + 1, cs =>
      match skipWs cs with
      | 'n' :: 'u' :: 'l' :: 'l' :: rest => some (.null, rest)
      | 't' :: 'r' :: 'u' :: 'e' :: rest => some (.bool true, rest)
      | 'f' :: 'a' :: 'l' :: 's' :: 'e' :: rest => some (.bool false, rest)
      | '"' :: rest =>
          match strBody [] rest with
          | some (s, rest') => some (.str s, rest')
          | none => none
      | '[' :: rest =>
          (match skipWs rest with
           | ']' :: rest' => some (.arr [], rest')
           | rest' =>
               match parseElems fuel rest' with
               | some (es, rest'') => some (.arr es, rest'')
               | none => none)
      | '{' :: rest =>
          (match skipWs rest with
           | '}' :: rest' => some (.obj [], rest')
           | rest' =>
               match parseFields fuel rest' with
               | some (fs, rest'') => some (.obj fs, rest'')
               | none => none)
      | cs' =>
          match numLexeme cs' with
          | some (lex, rest) => some (.num ⟨lex⟩, rest)
          | none => none

/-- Parse a nonempty comma-separated list of array elements and the `]`. -/
def parseElems : Nat → List Char → Option (List Json × List Char)
  | 0, _ => none
  | fuel + 1, cs =>
      match parseVal fuel cs with
      | none => none
      | some (j, rest) =>
          match skipWs rest with
          | ',' :: rest' =>
              match parseElems fuel rest' with
              | some (es, rest'') => some (j :: es, rest'')
              | none => none
          | ']' :: rest' => some ([j], rest')
          | _ => none

/-- Parse a nonempty comma-separated list of object members and the `}`. -/
def parseFields : Nat → List Char → Option (List (String × Json) × List Char)
  | 0, _ => none
  | fuel + 1, cs =>
      match skipWs cs with
      | '"' :: rest =>
          (match strBody [] rest with
           | none => none
           | some (k, rest1) =>
               match skipWs rest1 with
               | ':' :: rest2 =>
                   (match parseVal fuel rest2 with
                    | none => none
                    | some (v, rest3) =>
                        match skipWs rest3 with
                        | ',' :: rest4 =>
                            (match parseFields fuel rest4 with
                             | some (fs, rest5) => some ((k, v) :: fs, rest5)
                             | none => none)
                        | '}' :: rest4 => some ([(k, v)], rest4)
                        | _ => none)
               | _ => none)
      | _ => none

end

/-- Model of `JSON.parse`: `none` represents a thrown `SyntaxError`. -/
def jsonParse (s : String) : Option Json :=
  match parseVal (s.length + 1) s.data with
  | some (j, rest) => if skipWs rest = [] then some j else none
  | none => none

/-!
## JavaScript value helpers -/

/-- Is a number lexeme's value zero (all mantissa digits `0`)? -/
def numIsZero (l : String) : Bool :=
  (l.data.takeWhile fun c => c ≠ 'e' ∧ c ≠ 'E').all fun c => !c.isDigit || c == '0'

/-- JS truthiness of a value; `none` is `undefined`/`null`. -/
def jsTruthy : Option Json → Bool
  | none => false
  | some .null => false
  | some (.bool b) => b
  | some (.num l) => !numIsZero l
  | some (.str s) => s ≠ ""
  | some (.arr _) => true
  | some (.obj _) => true

/-- Property access `v.k` on a JS value: `none` is `undefined` (also the
result of accessing a property on a non-object or a missing key). -/
def jsGet (v : Option Json) (k : String) : Option Json :=
  match v with
  | some (.obj fields) => (fields.find? fun f => f.1 == k).map (·.2)
  | _ => none

/-- Conversion `String(x)` for a number lexeme: integer lexemes render as themselves
(`-0` renders as `0`); non-integer lexemes — which no claim exercises — are
kept verbatim. -/
def numToString (l : String) : String :=
  if l = "-0" then "0" else l

/-- Conversion `String(x)` / template-literal conversion.  Arrays are modelled only for
the empty array and objects render as `[object Object]`; the claims only
convert numbers and `undefined`. -/
def jsToString : Option Json → String
  | none => "undefined"
  | some .null => "null"
  | some (.bool true) => "true"
  | some (.bool false) => "false"
  | some (.num l) => numToString l
  | some (.str s) => s
  | some (.arr _) => ""
  | some (.obj _) => "[object Object]"

/-- Disjunction `x || y` on a JS value, as used for string defaults. -/
def jsOrString (v : Option Json) (dflt : String) : String :=
  if jsTruthy v then jsToString v else dflt

/-- JS whitespace (modelled for the ASCII whitespace characters). -/
def jsWs (c : Char) : Bool :=
  c = ' ' ∨ c = '\t' ∨ c = '\n' ∨ c = '\r' ∨ c.toNat = 11 ∨ c.toNat = 12

/-- Model of `String.prototype.trim`: strip leading and trailing JS
whitespace. -/
def jsTrim (s : String) : String :=
  ⟨(s.data.dropWhile jsWs).reverse.dropWhile jsWs |>.reverse⟩

/-!
## The verifier `validateTelegramData` (src/server.js:74-97) -/

/-- The sort comparator `([a], [b]) => a.localeCompare(b)`: `p` sorts no
later than `q` when the comparator is non-positive. -/
def entryLe (p q : String × String) : Prop := locCmp p.1 q.1 ≠ .gt

instance : DecidableRel entryLe := fun p q => by
  unfold entryLe; infer_instance

/-- Model of `Array.from(urlParams.entries()).sort(([a],[b]) => a.localeCompare(b))`:
JS `Array.prototype.sort` is stable, which insertion sort with the
non-strict comparator reproduces. -/
def sortEntries (l : List (String × String)) : List (String × String) :=
  List.insertionSort entryLe l

/-- The `dataCheckString` local: sorted entries rendered `key=value` and
joined by `'\n'`. -/
def dataCheckString (params : List (String × String)) : String :=
  String.intercalate ("\n") ((sortEntries params).map fun p => p.1 ++ "=" ++ p.2)

/-- The `secretKey` local: `crypto.createHash('sha256').update(BOT_TOKEN).digest()`. -/
def secretKey (botToken : String) : List Nat := sha256 (strBytes botToken)

/-- The `calculatedHash` local:
`crypto.createHmac('sha256', secretKey).update(dataCheckString).digest('hex')`. -/
def calculatedHash (botToken : String) (params : List (String × String)) : String :=
  bytesToHex (hmacSha256 (secretKey botToken) (strBytes (dataCheckString params)))

/-- Embedding of `validateTelegramData(initData)`.  The module-level
`BOT_TOKEN` configuration is passed explicitly as `botToken`; the result is
`none` for a returned JS `null` (rejection) and `some u` for a returned
user value.  The `try/catch` that converts a `JSON.parse` throw into
`null` is the `none` branch of `jsonParse`. -/
def validateTelegramData (botToken : String) (initData : String) : Option Json :=
  if initData = "" then none
  else if some (calculatedHash botToken (qpDelete (parseQS initData) "hash")) ≠
          qpGet (parseQS initData) "hash" then none
  else
    jsonParse
      (jsOrString ((qpGet (qpDelete (parseQS initData) "hash") "user").map .str)
        ("\x7b\x7d"))

/-!
## Spec-side definitions

These definitions follow the specification's words, for comparison with the
source-derived definitions above. -/

/-- Modelled from the spec: the Variant A signing key, "HMAC-SHA256 with key
`WebAppData` (literal string) applied to the shared secret" (§4.1 step 5).
This derivation is absent from `src/server.js`, which implements Variant B
(`secretKey`). -/
def specVariantAKey (botToken : String) : List Nat :=
  hmacSha256 (strBytes "WebAppData") (strBytes botToken)

/-- Modelled from the spec: the hex digest a Variant A implementation would
compute for a payload. -/
def specVariantAHash (botToken : String) (params : List (String × String)) : String :=
  bytesToHex (hmacSha256 (specVariantAKey botToken) (strBytes (dataCheckString params)))

/-- Spec-side key ordering: byte-wise ordinal (code-point) comparison, as the
spec's canonicalization step 3 prescribes. -/
def specOrdinalLe (p q : String × String) : Prop := ordCmp p.1 q.1 ≠ .gt

instance : DecidableRel specOrdinalLe := fun p q => by
  unfold specOrdinalLe; infer_instance

/-- Spec-side canonical string: pairs sorted by byte-wise ordinal key order,
rendered `key=value` and joined by newlines. -/
def specOrdinalCheckString (params : List (String × String)) : String :=
  String.intercalate ("\n")
    ((List.insertionSort specOrdinalLe params).map fun p => p.1 ++ "=" ++ p.2)

/-- Spec-side display name: trim `first_name` and `last_name` and join them
with a single space, an absent component contributing nothing. -/
def specDisplayName (user : Option Json) : String :=
  if jsTrim (jsOrString (jsGet user "first_name") "") = "" then
    jsTrim (jsOrString (jsGet user "last_name") "")
  else if jsTrim (jsOrString (jsGet user "last_name") "") = "" then
    jsTrim (jsOrString (jsGet user "first_name") "")
  else
    jsTrim (jsOrString (jsGet user "first_name") "") ++ " " ++
      jsTrim (jsOrString (jsGet user "last_name") "")

/-!
## The handlers consuming the verifier -/

/-- Shared admin test `ADMIN_IDS.includes(String(user.id))`
(src/server.js:175, 224, 239, 268). -/
def isAdminUser (adminIds : List String) (user : Option Json) : Bool :=
  adminIds.contains (jsToString (jsGet user "id"))

/-- Responses of `GET /api/is-admin`: `invalid` is
`{ok: false, error: ...}`, `valid b` is `{ok: true, is_admin: b}`. -/
inductive AdminResponse where
  | invalid : AdminResponse
  | valid (isAdmin : Bool) : AdminResponse
deriving DecidableEq

/-- Embedding of the `GET /api/is-admin` handler (src/server.js:172-177). -/
def isAdminEndpoint (botToken : String) (adminIds : List String)
    (initData : String) : AdminResponse :=
  if !jsTruthy (validateTelegramData botToken initData) then .invalid
  else .valid (isAdminUser adminIds (validateTelegramData botToken initData))

/-- The `user_name` field computed at src/server.js:194:
the template literal of the two name fields (falsy fields defaulting to the
empty string), trimmed as a whole. -/
def reportUserName (user : Option Json) : String :=
  jsTrim (jsOrString (jsGet user "first_name") "" ++ " " ++
          jsOrString (jsGet user "last_name") "")

/-- A JS object as an ordered key/value list; a `none` value is a property
holding `undefined`. -/
abbrev Obj := List (String × Option Json)

/-- Property read `r[k]` on an object: `none` for a missing key or an
`undefined` value. -/
def objGet (r : Obj) (k : String) : Option Json :=
  ((r.find? fun f => f.1 == k).map (·.2)).join

/-- Property write `r[k] = v`: overwrite an existing key in place, else
append the key. -/
def objSet (r : Obj) (k : String) (v : Option Json) : Obj :=
  if r.any fun f => f.1 == k then
    r.map fun f => if f.1 == k then (f.1, v) else f
  else r ++ [(k, v)]

/-- The report object constructed at src/server.js:191-198 (`image_urls` is
appended by the push at line 208; URLs and timestamps enter as opaque
strings). -/
def mkReport (user : Option Json) (reportId : String)
    (title description park station incidentAt : Option Json)
    (nowIso : String) (imageUrls : List Json) : Obj :=
  [("id", some (.str reportId)),
   ("user_id", jsGet user "id"),
   ("user_name", some (.str (reportUserName user))),
   ("title", title),
   ("description", description),
   ("park", park),
   ("station", station),
   ("incident_at", if jsTruthy incidentAt then incidentAt else some (.str nowIso)),
   ("created_at", some (.str nowIso)),
   ("image_urls", some (.arr imageUrls))]

/-- JS `Array.prototype.findIndex` with `-1` as `none`. -/
def findIdxO (p : α → Bool) : List α → Option Nat
  | [] => none
  | a :: l => if p a then some 0 else (findIdxO p l).map (· + 1)

/-- The predicate `r.id === req.params.id` of the `findIndex` calls:
strict equality of the stored id with the route-parameter string. -/
def isIdMatch (r : Obj) (pid : String) : Bool :=
  match objGet r "id" with
  | some (.str s) => s == pid
  | _ => false

/-- The update block of `PUT /api/report/:id` (src/server.js:277-280):
assign `title` and `description` when they are not `undefined`, then stamp
`updated_at`. -/
def updateReportObj (r : Obj) (title description : Option Json)
    (nowIso : String) : Obj :=
  let r1 := match title with
            | some t => objSet r "title" (some t)
            | none => r
  let r2 := match description with
            | some d => objSet r1 "description" (some d)
            | none => r1
  objSet r2 "updated_at" (some (.str nowIso))

/-- Responses of `PUT /api/report/:id`. -/
inductive PutResponse where
  | noAccess : PutResponse
  | notFound : PutResponse
  | updated : PutResponse
deriving DecidableEq

/-- Embedding of the `PUT /api/report/:id` handler (src/server.js:266-288):
the pure transformation of the stored report list (file I/O errors are the
surrounding try/catch, out of scope of the claims). -/
def putReportHandler (botToken : String) (adminIds : List String)
    (initData paramId : String) (title description : Option Json)
    (reports : List Obj) (nowIso : String) : PutResponse × List Obj :=
  if !jsTruthy (validateTelegramData botToken initData) ||
      !isAdminUser adminIds (validateTelegramData botToken initData) then
    (.noAccess, reports)
  else
    match findIdxO (fun r => isIdMatch r paramId) reports with
    | none => (.notFound, reports)
    | some idx =>
        (.updated,
         reports.set idx (updateReportObj (reports.getD idx []) title description nowIso))

/-- A sequence of verifier calls, each a (secret, blob) pair: the verifier
holds no state, so a call sequence is just a map. -/
def runVerifierCalls (calls : List (String × String)) : List (Option Json) :=
  calls.map fun c => validateTelegramData c.1 c.2

/-!
## Concrete scenario data

The digests were produced under Variant B (`sha256(token)` as HMAC key) and
Variant A (`hmac("WebAppData", token)` as HMAC key) for the canonical
strings of the listed payloads; the theorems below re-verify every digest
by evaluating the embedded SHA-256. -/

/-- The end-to-end scenario's shared secret. -/
def testToken : String := "TESTSECRET"

/-- The scenario blob up to the hash value. -/
def annStem : String := "id=123&user=\x7b\"id\":42,\"first_name\":\"Ann\"\x7d&hash="

/-- The scenario's `user` value (the JSON text of the identity). -/
def annUserVal : String := "\x7b\"id\":42,\"first_name\":\"Ann\"\x7d"

/-- Variant B digest of the scenario payload. -/
def annHashB : String :=
  "fb8ceff1e007808b1fb2c08958b7b56ea2d89fee1e7187c5bcbd04ba09fd80c3"

/-- Variant A digest of the scenario payload. -/
def annHashA : String :=
  "c1fb1ce0fd252cf38c3c150066eea910751144c9a128f464f73bc6fe1a3d240c"

/-- The scenario blob carrying the Variant B digest. -/
def annBlobB : String := annStem ++ annHashB

/-- The scenario blob carrying the Variant A digest. -/
def annBlobA : String := annStem ++ annHashA

/-- The scenario's embedded identity. -/
def annUser : Json := .obj [("id", .num "42"), ("first_name", .str "Ann")]

/-- A payload without a `user` key, correctly signed under Variant B. -/
def noUserBlob : String :=
  "id=1&hash=0bc88485043017b400d936d88344e12b1f1fd6f03dedae57846f8a06593c54cf"

/-- A payload whose `user` value is not JSON, correctly signed under
Variant B. -/
def badUserBlob : String :=
  "user=xyz&hash=a3c488393f8f3eedd998a7ad65d5594f8142b4520913deb34d638b92d6b9dd24"

/-- A correctly signed payload with identity id 42, for the admin-gating
scenario. -/
def id42Blob : String :=
  "user=\x7b\"id\":42\x7d&hash=116f24eca878cee38d9b8d2e0dbc452fcf73623f521ceba5ad6c31c9c4f72854"

/-- A correctly signed payload whose first name carries a trailing space. -/
def edgeNameBlob : String :=
  "user=\x7b\"first_name\":\"Ann \",\"last_name\":\"Smith\",\"id\":7\x7d&hash=1ffd0e09247e3abc60a2335c39c31bcd8c6b3f525c65319ec67d577075ba1f88"

/-- A correctly signed payload with clean first and last names. -/
def bobBlob : String :=
  "user=\x7b\"id\":5,\"first_name\":\"Bob\",\"last_name\":\"Lee\"\x7d&hash=6befded6c1ed01bc8619fdb2e295f4259df8b3633ef31e732380367d1959fdfc"

/-- Duplicate-key payloads holding the same set of pairs in different
orders. -/
def dupBlob1 : String := "a=1&a=2&hash=x"

/-- The same set of pairs as `dupBlob1`, in another order. -/
def dupBlob2 : String := "a=2&a=1&hash=x"

/-- The identity embedded in `id42Blob`. -/
def id42User : Json := .obj [("id", .num "42")]

/-- The identity embedded in `edgeNameBlob`. -/
def edgeUser : Json :=
  .obj [("first_name", .str "Ann "), ("last_name", .str "Smith"), ("id", .num "7")]

/-- The identity embedded in `bobBlob`. -/
def bobUser : Json :=
  .obj [("id", .num "5"), ("first_name", .str "Bob"), ("last_name", .str "Lee")]

/-- A stored report used by the update-handler scenario. -/
def demoReport1 : Obj :=
  [("id", some (.str "DEF-1")), ("title", some (.str "t1")),
   ("park", some (.str "P1")), ("user_id", some (.num "42"))]

/-- A second stored report used by the update-handler scenario. -/
def demoReport2 : Obj :=
  [("id", some (.str "DEF-2")), ("title", some (.str "t2")),
   ("description", some (.str "d2")), ("station", some (.str "S2"))]

/-- Lowercase ASCII letters and digits: the character class on which the
locale-aware and ordinal orderings provably agree. -/
def isLowAlnum (c : Char) : Bool :=
  (97 ≤ c.toNat ∧ c.toNat ≤ 122) ∨ (48 ≤ c.toNat ∧ c.toNat ≤ 57)

/-- The strict-or-equal entry relation used to identify sorted permutations
with distinct keys. -/
def entryLtEq (p q : String × String) : Prop := locCmp p.1 q.1 = .lt ∨ p = q

/-!
## Lemmas: orderings and the collation model -/

theorem ordering_then_swap (a b : Ordering) : (a.then b).swap = a.swap.then b.swap := by
  cases a <;> rfl

theorem ordering_then_eq_right (a : Ordering) : a.then .eq = a := by
  cases a <;> rfl

theorem ordering_then_eq_eq {a b : Ordering} : a.then b = .eq ↔ a = .eq ∧ b = .eq := by
  cases a <;> simp [Ordering.then]

theorem ordering_then_eq_lt {a b : Ordering} :
    a.then b = .lt ↔ a = .lt ∨ (a = .eq ∧ b = .lt) := by
  cases a <;> simp [Ordering.then]

theorem collCharCmp_swap (c d : Char) : collCharCmp d c = (collCharCmp c d).swap := by
  unfold collCharCmp
  rw [ordering_then_swap, Nat.compare_swap, Nat.compare_swap]

theorem collChar_inj {c d : Char} (hp : collPrimary c = collPrimary d)
    (ht : collTertiary c = collTertiary d) : c = d := by
  apply Char.ext
  apply UInt32.ext
  show c.toNat = d.toNat
  unfold collPrimary at hp
  unfold collTertiary at ht
  simp only at hp ht
  split_ifs at hp ht <;> omega

theorem collCharCmp_eq_iff {c d : Char} : collCharCmp c d = .eq ↔ c = d := by
  constructor
  · intro h
    unfold collCharCmp at h
    rw [ordering_then_eq_eq] at h
    exact collChar_inj (Nat.compare_eq_eq.1 h.1) (Nat.compare_eq_eq.1 h.2)
  · rintro rfl
    unfold collCharCmp
    rw [Nat.compare_eq_eq.2 rfl, Nat.compare_eq_eq.2 rfl]
    rfl

theorem collCharCmp_lt_iff {c d : Char} :
    collCharCmp c d = .lt ↔
      collPrimary c < collPrimary d ∨
        (collPrimary c = collPrimary d ∧ collTertiary c < collTertiary d) := by
  unfold collCharCmp
  rw [ordering_then_eq_lt, Nat.compare_eq_lt, Nat.compare_eq_eq, Nat.compare_eq_lt]

theorem collCharCmp_lt_trans {c d e : Char} (h1 : collCharCmp c d = .lt)
    (h2 : collCharCmp d e = .lt) : collCharCmp c e = .lt := by
  rw [collCharCmp_lt_iff] at h1 h2 ⊢
  omega

theorem cmpChars_swap (l1 l2 : List Char) :
    cmpChars collCharCmp l2 l1 = (cmpChars collCharCmp l1 l2).swap := by
  induction l1 generalizing l2 with
  | nil => cases l2 <;> rfl
  | cons a as ih =>
      cases l2 with
      | nil => rfl
      | cons b bs =>
          show (collCharCmp b a).then (cmpChars collCharCmp bs as) = _
          rw [collCharCmp_swap, ih bs, ← ordering_then_swap]
          rfl

theorem cmpChars_eq_iff {l1 l2 : List Char} :
    cmpChars collCharCmp l1 l2 = .eq ↔ l1 = l2 := by
  induction l1 generalizing l2 with
  | nil => cases l2 <;> simp [cmpChars]
  | cons a as ih =>
      cases l2 with
      | nil => simp [cmpChars]
      | cons b bs =>
          show (collCharCmp a b).then (cmpChars collCharCmp as bs) = .eq ↔ _
          rw [ordering_then_eq_eq]
          simp [collCharCmp_eq_iff, ih]

theorem cmpChars_lt_trans {l1 l2 l3 : List Char}
    (h1 : cmpChars collCharCmp l1 l2 = .lt)
    (h2 : cmpChars collCharCmp l2 l3 = .lt) :
    cmpChars collCharCmp l1 l3 = .lt := by
  induction l1 generalizing l2 l3 with
  | nil =>
      cases l2 with
      | nil => exact absurd h1 (by simp [cmpChars])
      | cons b bs =>
          cases l3 with
          | nil => exact absurd h2 (by simp [cmpChars])
          | cons c cs => simp [cmpChars]
  | cons a as ih =>
      cases l2 with
      | nil => exact absurd h1 (by simp [cmpChars])
      | cons b bs =>
          cases l3 with
          | nil => exact absurd h2 (by simp [cmpChars])
          | cons c cs =>
              rw [show cmpChars collCharCmp (a :: as) (b :: bs) =
                    (collCharCmp a b).then (cmpChars collCharCmp as bs) from rfl,
                  ordering_then_eq_lt] at h1
              rw [show cmpChars collCharCmp (b :: bs) (c :: cs) =
                    (collCharCmp b c).then (cmpChars collCharCmp bs cs) from rfl,
                  ordering_then_eq_lt] at h2
              show (collCharCmp a c).then (cmpChars collCharCmp as cs) = .lt
              rw [ordering_then_eq_lt]
              rcases h1 with h1 | ⟨h1e, h1r⟩
              · rcases h2 with h2 | ⟨h2e, h2r⟩
                · exact Or.inl (collCharCmp_lt_trans h1 h2)
                · obtain rfl : b = c := collCharCmp_eq_iff.1 h2e
                  exact Or.inl h1
              · obtain rfl : a = b := collCharCmp_eq_iff.1 h1e
                rcases h2 with h2 | ⟨h2e, h2r⟩
                · exact Or.inl h2
                · obtain rfl : a = c := collCharCmp_eq_iff.1 h2e
                  exact Or.inr ⟨collCharCmp_eq_iff.2 rfl, ih h1r h2r⟩

theorem locCmp_swap (s t : String) : locCmp t s = (locCmp s t).swap :=
  cmpChars_swap s.data t.data

theorem locCmp_eq_iff {s t : String} : locCmp s t = .eq ↔ s = t := by
  unfold locCmp
  rw [cmpChars_eq_iff]
  exact ⟨fun h => congrArg String.mk h, fun h => by rw [h]⟩

theorem locCmp_lt_trans {s t u : String} (h1 : locCmp s t = .lt)
    (h2 : locCmp t u = .lt) : locCmp s u = .lt := by
  unfold locCmp at *
  exact cmpChars_lt_trans h1 h2

theorem entryLe_total (p q : String × String) : entryLe p q ∨ entryLe q p := by
  unfold entryLe
  rcases h : locCmp p.1 q.1 with _ | _ | _
  · left; simp [h]
  · left; simp [h]
  · right; rw [locCmp_swap, h]; decide

theorem entryLe_trans {p q r : String × String} (h1 : entryLe p q)
    (h2 : entryLe q r) : entryLe p r := by
  unfold entryLe at *
  rcases e1 : locCmp p.1 q.1 with _ | _ | _
  · rcases e2 : locCmp q.1 r.1 with _ | _ | _
    · simp [locCmp_lt_trans e1 e2]
    · rw [← locCmp_eq_iff.1 e2, e1]; simp
    · exact absurd e2 h2
  · rw [locCmp_eq_iff.1 e1]; exact h2
  · exact absurd e1 h1

instance : IsTotal (String × String) entryLe := ⟨entryLe_total⟩

instance : IsTrans (String × String) entryLe := ⟨fun _ _ _ => entryLe_trans⟩

theorem sortEntries_perm (l : List (String × String)) : List.Perm (sortEntries l) l :=
  List.perm_insertionSort entryLe l

theorem sortEntries_sorted (l : List (String × String)) :
    List.Sorted entryLe (sortEntries l) :=
  List.sorted_insertionSort entryLe l

theorem sorted_entryLtEq_of_nodup {l : List (String × String)}
    (hs : List.Sorted entryLe l) (hnd : (l.map Prod.fst).Nodup) :
    List.Sorted entryLtEq l := by
  have hnd' : l.Pairwise fun p q : String × String => p.1 ≠ q.1 :=
    List.pairwise_map.1 hnd
  refine (hs.and hnd').imp ?_
  rintro p q ⟨h1, h2⟩
  rcases e : locCmp p.1 q.1 with _ | _ | _
  · exact Or.inl e
  · exact absurd (locCmp_eq_iff.1 e) h2
  · exact absurd e h1

theorem sortEntries_eq_of_perm {l1 l2 : List (String × String)} (hp : List.Perm l1 l2)
    (hnd : (l1.map Prod.fst).Nodup) : sortEntries l1 = sortEntries l2 := by
  haveI : IsAntisymm (String × String) entryLtEq := ⟨by
    rintro p q (h1 | rfl) h2
    · rcases h2 with h2 | h2e
      · have hsw := locCmp_swap p.1 q.1
        rw [h1, h2] at hsw
        exact absurd hsw (by decide)
      · exact h2e.symm
    · rfl⟩
  have hnd2 : (l2.map Prod.fst).Nodup := ((hp.map Prod.fst).nodup_iff).1 hnd
  apply List.eq_of_perm_of_sorted (r := entryLtEq)
  · exact (sortEntries_perm l1).trans (hp.trans (sortEntries_perm l2).symm)
  · exact sorted_entryLtEq_of_nodup (sortEntries_sorted l1)
      (((sortEntries_perm l1).map Prod.fst).nodup_iff.2 hnd)
  · exact sorted_entryLtEq_of_nodup (sortEntries_sorted l2)
      (((sortEntries_perm l2).map Prod.fst).nodup_iff.2 hnd2)

theorem orderedInsert_congr {α : Type} (R S : α → α → Prop) [DecidableRel R]
    [DecidableRel S] (a : α) (l : List α) (h : ∀ b ∈ l, (R a b ↔ S a b)) :
    l.orderedInsert R a = l.orderedInsert S a := by
  induction l with
  | nil => rfl
  | cons b t ih =>
      simp only [List.orderedInsert]
      by_cases hr : R a b
      · rw [if_pos hr, if_pos ((h b (by simp)).1 hr)]
      · rw [if_neg hr, if_neg (fun hs => hr ((h b (by simp)).2 hs)),
           ih fun x hx => h x (by simp [hx])]

theorem insertionSort_congr {α : Type} (R S : α → α → Prop) [DecidableRel R]
    [DecidableRel S] (l : List α) (h : ∀ a ∈ l, ∀ b ∈ l, (R a b ↔ S a b)) :
    l.insertionSort R = l.insertionSort S := by
  induction l with
  | nil => rfl
  | cons a t ih =>
      simp only [List.insertionSort]
      rw [ih fun x hx y hy => h x (by simp [hx]) y (by simp [hy])]
      exact orderedInsert_congr R S a _ fun b hb =>
        h a (by simp) b (by simp [(List.perm_insertionSort S t).subset hb])

theorem natCompare_congr {x y u v : Nat} (h1 : x < y ↔ u < v)
    (h2 : y < x ↔ v < u) : compare x y = compare u v := by
  rcases Nat.lt_trichotomy x y with h | h | h
  · rw [Nat.compare_eq_lt.2 h]
    exact (Nat.compare_eq_lt.2 (h1.1 h)).symm
  · rw [Nat.compare_eq_eq.2 h]
    exact (Nat.compare_eq_eq.2 (by omega)).symm
  · rw [Nat.compare_eq_gt.2 h]
    exact (Nat.compare_eq_gt.2 (h2.1 h)).symm

theorem collPrimary_lower {c : Char} (h : 97 ≤ c.toNat ∧ c.toNat ≤ 122) :
    collPrimary c = 1000 + (c.toNat - 97) := by
  simp only [collPrimary]
  rw [if_pos h]

theorem collPrimary_digit {c : Char} (h : 48 ≤ c.toNat ∧ c.toNat ≤ 57) :
    collPrimary c = 500 + (c.toNat - 48) := by
  simp only [collPrimary]
  rw [if_neg (by omega), if_neg (by omega), if_pos h]

theorem collTertiary_of_not_upper {c : Char} (h : ¬(65 ≤ c.toNat ∧ c.toNat ≤ 90)) :
    collTertiary c = 0 := by
  simp only [collTertiary]
  rw [if_neg h]

theorem collCharCmp_eq_ordinal {c d : Char} (hc : isLowAlnum c = true)
    (hd : isLowAlnum d = true) : collCharCmp c d = compare c.toNat d.toNat := by
  have hc' : (97 ≤ c.toNat ∧ c.toNat ≤ 122) ∨ (48 ≤ c.toNat ∧ c.toNat ≤ 57) := by
    simpa [isLowAlnum] using hc
  have hd' : (97 ≤ d.toNat ∧ d.toNat ≤ 122) ∨ (48 ≤ d.toNat ∧ d.toNat ≤ 57) := by
    simpa [isLowAlnum] using hd
  unfold collCharCmp
  rw [collTertiary_of_not_upper (by omega), collTertiary_of_not_upper (by omega),
      Nat.compare_eq_eq.2 rfl, ordering_then_eq_right]
  rcases hc' with h1 | h1 <;> rcases hd' with h2 | h2
  · rw [collPrimary_lower h1, collPrimary_lower h2]
    exact natCompare_congr (by omega) (by omega)
  · rw [collPrimary_lower h1, collPrimary_digit h2]
    exact natCompare_congr (by omega) (by omega)
  · rw [collPrimary_digit h1, collPrimary_lower h2]
    exact natCompare_congr (by omega) (by omega)
  · rw [collPrimary_digit h1, collPrimary_digit h2]
    exact natCompare_congr (by omega) (by omega)

theorem cmpChars_eq_ordinal {l1 l2 : List Char}
    (h1 : ∀ c ∈ l1, isLowAlnum c = true) (h2 : ∀ c ∈ l2, isLowAlnum c = true) :
    cmpChars collCharCmp l1 l2 =
      cmpChars (fun a b => compare a.toNat b.toNat) l1 l2 := by
  induction l1 generalizing l2 with
  | nil => cases l2 <;> rfl
  | cons a as ih =>
      cases l2 with
      | nil => rfl
      | cons b bs =>
          show (collCharCmp a b).then (cmpChars collCharCmp as bs) = _
          rw [collCharCmp_eq_ordinal (h1 a (by simp)) (h2 b (by simp)),
              ih (fun c hc => h1 c (by simp [hc])) fun c hc => h2 c (by simp [hc])]
          rfl

theorem entryLe_iff_specOrdinalLe {p q : String × String}
    (hp : ∀ c ∈ p.1.data, isLowAlnum c = true)
    (hq : ∀ c ∈ q.1.data, isLowAlnum c = true) :
    (entryLe p q ↔ specOrdinalLe p q) := by
  unfold entryLe specOrdinalLe locCmp ordCmp
  rw [cmpChars_eq_ordinal hp hq]

theorem dataCheckString_eq_specOrdinal {params : List (String × String)}
    (h : ∀ p ∈ params, ∀ c ∈ p.1.data, isLowAlnum c = true) :
    dataCheckString params = specOrdinalCheckString params := by
  unfold dataCheckString specOrdinalCheckString sortEntries
  rw [insertionSort_congr entryLe specOrdinalLe params fun a ha b hb =>
    entryLe_iff_specOrdinalLe (h a ha) (h b hb)]

/-!
## Lemmas: parsing a blob whose hash value is abstract -/

theorem splitOnChar_no_sep {sep : Char} {l : List Char} (h : ∀ c ∈ l, c ≠ sep)
    (cur : List Char) : splitOnChar sep cur l = [cur.reverse ++ l] := by
  induction l generalizing cur with
  | nil => simp [splitOnChar]
  | cons c cs ih =>
      show (if c = sep then cur.reverse :: splitOnChar sep [] cs
            else splitOnChar sep (c :: cur) cs) = [cur.reverse ++ (c :: cs)]
      rw [if_neg (h c (by simp)), ih fun x hx => h x (by simp [hx])]
      simp

theorem splitOnChar_split {sep : Char} {l1 l2 : List Char} (h : ∀ c ∈ l1, c ≠ sep)
    (cur : List Char) :
    splitOnChar sep cur (l1 ++ (sep :: l2)) =
      (cur.reverse ++ l1) :: splitOnChar sep [] l2 := by
  induction l1 generalizing cur with
  | nil =>
      show (if sep = sep then cur.reverse :: splitOnChar sep [] l2
            else splitOnChar sep (sep :: cur) l2) = (cur.reverse ++ []) :: splitOnChar sep [] l2
      rw [if_pos rfl]
      simp
  | cons c cs ih =>
      show (if c = sep then cur.reverse :: splitOnChar sep [] (cs ++ (sep :: l2))
            else splitOnChar sep (c :: cur) (cs ++ (sep :: l2))) = _
      rw [if_neg (h c (by simp)), ih fun x hx => h x (by simp [hx])]
      simp

theorem breakEq_split {l1 l2 : List Char} (h : ∀ c ∈ l1, c ≠ '=') :
    breakEq (l1 ++ ('=' :: l2)) = (l1, some l2) := by
  induction l1 with
  | nil =>
      show (if '=' = '=' then (([] : List Char), some l2)
            else ('=' :: (breakEq l2).1, (breakEq l2).2)) = (([] : List Char), some l2)
      rw [if_pos rfl]
  | cons c cs ih =>
      show (if c = '=' then (([] : List Char), some (cs ++ ('=' :: l2)))
            else (c :: (breakEq (cs ++ ('=' :: l2))).1, (breakEq (cs ++ ('=' :: l2))).2)) =
          (c :: cs, some l2)
      rw [if_neg (h c (by simp)), ih fun x hx => h x (by simp [hx])]

theorem pctDecode_id {l : List Char} (h : ∀ c ∈ l, c ≠ '%') : pctDecode l = l := by
  induction l with
  | nil => rfl
  | cons c cs ih =>
      rw [pctDecode.eq_def]
      split
      · next heq => exact absurd (by injection heq with h1 _) (h c (by simp))
      · next c' rest heq =>
          injection heq with h1 h2
          subst h1
          subst h2
          rw [ih fun x hx => h x (by simp [hx])]
      · next heq => exact absurd heq (by simp)

theorem mapPlus_id {l : List Char} (h : ∀ c ∈ l, c ≠ '+') :
    (l.map fun c => if c = '+' then ' ' else c) = l := by
  induction l with
  | nil => rfl
  | cons c cs ih =>
      simp only [List.map_cons]
      rw [if_neg (h c (by simp)), ih fun x hx => h x (by simp [hx])]

theorem decodeComp_id {l : List Char} (h : ∀ c ∈ l, c ≠ '%' ∧ c ≠ '+') :
    decodeComp l = ⟨l⟩ := by
  unfold decodeComp
  rw [mapPlus_id fun c hc => (h c hc).2, pctDecode_id fun c hc => (h c hc).1]

theorem parseQS_eq_parseSegs {s : String} (hhead : ∀ rest, s.data ≠ '?' :: rest) :
    parseQS s = parseSegs s.data := by
  unfold parseQS
  split
  · next rest heq => exact absurd heq (hhead rest)
  · rfl

theorem parseSeg_cons (c : Char) (rest : List Char) :
    parseSeg (c :: rest) =
      some (decodeComp (breakEq (c :: rest)).1,
            decodeComp ((breakEq (c :: rest)).2.getD [])) := rfl

theorem parseSegs_annStem (h : String)
    (hs : ∀ c ∈ h.data, c ≠ '&' ∧ c ≠ '=' ∧ c ≠ '%' ∧ c ≠ '+') :
    parseSegs (annStem.data ++ h.data) =
      [("id", "123"), ("user", annUserVal), ("hash", h)] := by
  have e1 : annStem.data ++ h.data =
      "id=123".data ++
        ('&' :: (("user=" ++ annUserVal).data ++
          ('&' :: ("hash".data ++ ('=' :: h.data))))) := by
    rw [show annStem.data =
          ("id=123".data ++
            ('&' :: (("user=" ++ annUserVal).data ++ ('&' :: "hash".data)))) ++ ['='] from rfl]
    simp [List.append_assoc]
  have e2 : "hash".data ++ ('=' :: h.data) = 'h' :: ("ash".data ++ ('=' :: h.data)) := rfl
  have hseg : parseSeg ("hash".data ++ ('=' :: h.data)) = some ("hash", h) := by
    rw [e2, parseSeg_cons, ← e2,
        breakEq_split (show ∀ c ∈ ("hash".data : List Char), c ≠ '=' by decide)]
    simp only [Option.getD_some]
    rw [show decodeComp "hash".data = "hash" from rfl,
        decodeComp_id fun c hc => ⟨(hs c hc).2.2.1, (hs c hc).2.2.2⟩]
  have hnosep : ∀ c ∈ "hash".data ++ ('=' :: h.data), c ≠ '&' := by
    intro c hc
    rcases List.mem_append.1 hc with hc | hc
    · exact (show ∀ x ∈ ("hash".data : List Char), x ≠ '&' by decide) c hc
    · cases hc with
      | head => decide
      | tail _ hc2 => exact (hs c hc2).1
  rw [e1]
  unfold parseSegs
  rw [splitOnChar_split (by decide) [],
      splitOnChar_split (by decide) [],
      splitOnChar_no_sep hnosep []]
  simp only [List.reverse_nil, List.nil_append]
  rw [List.filterMap_cons_some (show parseSeg "id=123".data = some ("id", "123") from rfl),
      List.filterMap_cons_some
        (show parseSeg ("user=" ++ annUserVal).data = some ("user", annUserVal) from rfl),
      List.filterMap_cons_some hseg, List.filterMap_nil]

/-!
## Lemmas: the verifier's branches -/

theorem validate_of_hash_mismatch {tok blob : String}
    (h : qpGet (parseQS blob) "hash" ≠
      some (calculatedHash tok (qpDelete (parseQS blob) "hash"))) :
    validateTelegramData tok blob = none := by
  unfold validateTelegramData
  by_cases hb : blob = ""
  · rw [if_pos hb]
  · rw [if_neg hb, if_pos (Ne.symm h)]

theorem validate_missing_hash {tok blob : String}
    (hh : qpGet (parseQS blob) "hash" = none) :
    validateTelegramData tok blob = none :=
  validate_of_hash_mismatch (by rw [hh]; exact fun hx => Option.noConfusion hx)

theorem validate_success {tok blob h v : String} {j : Json}
    (hh : qpGet (parseQS blob) "hash" = some h)
    (hc : h = calculatedHash tok (qpDelete (parseQS blob) "hash"))
    (hu : qpGet (qpDelete (parseQS blob) "hash") "user" = some v)
    (hj : jsonParse v = some j) :
    validateTelegramData tok blob = some j := by
  have hne : blob ≠ "" := by
    rintro rfl
    rw [show qpGet (parseQS "") "hash" = none from rfl] at hh
    exact Option.noConfusion hh
  have hv : v ≠ "" := by
    rintro rfl
    rw [show jsonParse "" = none from rfl] at hj
    exact Option.noConfusion hj
  unfold validateTelegramData
  rw [if_neg hne, hh, hc, if_neg (by simp), hu]
  show jsonParse (jsOrString (some (Json.str v)) ("\x7b\x7d")) = some j
  unfold jsOrString
  rw [if_pos (show jsTruthy (some (Json.str v)) = true by simp [jsTruthy, hv])]
  exact hj

theorem validate_no_user {tok blob h : String}
    (hh : qpGet (parseQS blob) "hash" = some h)
    (hc : h = calculatedHash tok (qpDelete (parseQS blob) "hash"))
    (hu : qpGet (qpDelete (parseQS blob) "hash") "user" = none) :
    validateTelegramData tok blob = some (Json.obj []) := by
  have hne : blob ≠ "" := by
    rintro rfl
    rw [show qpGet (parseQS "") "hash" = none from rfl] at hh
    exact Option.noConfusion hh
  unfold validateTelegramData
  rw [if_neg hne, hh, hc, if_neg (by simp), hu]
  rfl

theorem validate_empty_user {tok blob h : String}
    (hh : qpGet (parseQS blob) "hash" = some h)
    (hc : h = calculatedHash tok (qpDelete (parseQS blob) "hash"))
    (hu : qpGet (qpDelete (parseQS blob) "hash") "user" = some "") :
    validateTelegramData tok blob = some (Json.obj []) := by
  have hne : blob ≠ "" := by
    rintro rfl
    rw [show qpGet (parseQS "") "hash" = none from rfl] at hh
    exact Option.noConfusion hh
  unfold validateTelegramData
  rw [if_neg hne, hh, hc, if_neg (by simp), hu]
  rfl

theorem validate_bad_user {tok blob h v : String}
    (hh : qpGet (parseQS blob) "hash" = some h)
    (hc : h = calculatedHash tok (qpDelete (parseQS blob) "hash"))
    (hu : qpGet (qpDelete (parseQS blob) "hash") "user" = some v)
    (hv : v ≠ "") (hj : jsonParse v = none) :
    validateTelegramData tok blob = none := by
  have hne : blob ≠ "" := by
    rintro rfl
    rw [show qpGet (parseQS "") "hash" = none from rfl] at hh
    exact Option.noConfusion hh
  unfold validateTelegramData
  rw [if_neg hne, hh, hc, if_neg (by simp), hu]
  show jsonParse (jsOrString (some (Json.str v)) ("\x7b\x7d")) = none
  unfold jsOrString
  rw [if_pos (show jsTruthy (some (Json.str v)) = true by simp [jsTruthy, hv])]
  exact hj

/-!
## Lemmas: JS object reads and writes -/

theorem objGet_objSet_self (r : Obj) (k : String) (v : Option Json) :
    objGet (objSet r k v) k = v := by
  unfold objSet
  by_cases hany : r.any (fun f => f.1 == k) = true
  · rw [if_pos hany]
    induction r with
    | nil => exact absurd hany (by simp)
    | cons f t ih =>
        by_cases hf : f.1 == k
        · unfold objGet
          rw [List.map_cons, if_pos hf, List.find?_cons_of_pos _ (by simpa using hf)]
          simp
        · have hany' : t.any (fun f => f.1 == k) = true := by
            rcases List.any_eq_true.1 hany with ⟨x, hx, hpx⟩
            rcases hx with _ | hx
            · exact absurd hpx hf
            · exact List.any_eq_true.2 ⟨x, by assumption, hpx⟩
          have := ih hany'
          unfold objGet at this ⊢
          rw [List.map_cons, if_neg hf, List.find?_cons_of_neg _ (by simpa using hf)]
          exact this
  · rw [if_neg hany]
    induction r with
    | nil =>
        unfold objGet
        rw [List.nil_append, List.find?_cons_of_pos _ (by simp)]
        simp
    | cons f t ih =>
        have hf : (f.1 == k) = false := by
          by_contra hx
          exact hany (List.any_eq_true.2 ⟨f, by simp, by simpa using hx⟩)
        have hany' : ¬t.any (fun f => f.1 == k) = true := fun hx => by
          rcases List.any_eq_true.1 hx with ⟨x, hx2, hpx⟩
          exact hany (List.any_eq_true.2 ⟨x, by simp [hx2], hpx⟩)
        have := ih hany'
        unfold objGet at this ⊢
        rw [List.cons_append, List.find?_cons_of_neg _ (by simp [hf])]
        exact this

theorem objGet_objSet_ne (r : Obj) (k k' : String) (v : Option Json)
    (hne : k' ≠ k) : objGet (objSet r k v) k' = objGet r k' := by
  unfold objSet
  by_cases hany : r.any (fun f => f.1 == k) = true
  · rw [if_pos hany]
    clear hany
    induction r with
    | nil => rfl
    | cons f t ih =>
        unfold objGet at ih ⊢
        rw [List.map_cons]
        by_cases hf : f.1 == k'
        · have hfk : (f.1 == k) = false := by
            have : f.1 = k' := by simpa using hf
            simp [this, hne]
          rw [if_neg (by simp [hfk]), List.find?_cons_of_pos _ (by simpa using hf),
              List.find?_cons_of_pos _ (by simpa using hf)]
        · by_cases hfk : f.1 == k
          · rw [if_pos hfk, List.find?_cons_of_neg _ (by simpa using hf),
                List.find?_cons_of_neg _ (by simpa using hf)]
            exact ih
          · rw [if_neg hfk, List.find?_cons_of_neg _ (by simpa using hf),
                List.find?_cons_of_neg _ (by simpa using hf)]
            exact ih
  · rw [if_neg hany]
    clear hany
    induction r with
    | nil =>
        unfold objGet
        rw [List.nil_append,
            List.find?_cons_of_neg _ (by simp [show (k == k') = false by
              simpa using fun hx => hne hx.symm])]
    | cons f t ih =>
        unfold objGet at ih ⊢
        rw [List.cons_append]
        by_cases hf : f.1 == k'
        · rw [List.find?_cons_of_pos _ (by simpa using hf),
              List.find?_cons_of_pos _ (by simpa using hf)]
        · rw [List.find?_cons_of_neg _ (by simpa using hf),
              List.find?_cons_of_neg _ (by simpa using hf)]
          exact ih

theorem updateReportObj_frame (r : Obj) (title description : Option Json)
    (nowIso : String) (k : String) (h1 : k ≠ "title") (h2 : k ≠ "description")
    (h3 : k ≠ "updated_at") :
    objGet (updateReportObj r title description nowIso) k = objGet r k := by
  unfold updateReportObj
  rw [objGet_objSet_ne _ _ _ _ h3]
  cases description with
  | none =>
      cases title with
      | none => rfl
      | some t => exact objGet_objSet_ne _ _ _ _ h1
  | some d =>
      rw [objGet_objSet_ne _ _ _ _ h2]
      cases title with
      | none => rfl
      | some t => exact objGet_objSet_ne _ _ _ _ h1

theorem findIdxO_spec {α : Type} (p : α → Bool) (l : List α) (i : Nat) (d : α)
    (h : findIdxO p l = some i) :
    i < l.length ∧ p (l.getD i d) = true ∧ ∀ j, j < i → p (l.getD j d) = false := by
  induction l generalizing i with
  | nil => exact absurd h (by simp [findIdxO])
  | cons a t ih =>
      unfold findIdxO at h
      by_cases ha : p a = true
      · rw [if_pos ha] at h
        injection h with h
        subst h
        exact ⟨by simp, by simpa using ha, fun j hj => absurd hj (by omega)⟩
      · rw [if_neg ha] at h
        rcases Option.map_eq_some'.1 h with ⟨i', hi', rfl⟩
        obtain ⟨hlen, hp, hbefore⟩ := ih i' hi'
        refine ⟨by simpa using hlen, by simpa using hp, ?_⟩
        intro j hj
        cases j with
        | zero => simpa using Bool.eq_false_iff.2 ha
        | succ j' => simpa using hbefore j' (by omega)

/-!
## Lemmas: trimming -/

theorem jsTrim_eq_self {s : String} (hne : s.data ≠ [])
    (hhead : jsWs (s.data.headD ' ') = false)
    (hlast : jsWs (s.data.reverse.headD ' ') = false) :
    jsTrim s = s := by
  unfold jsTrim
  rcases hd : s.data with _ | ⟨c, t⟩
  · exact absurd hd hne
  · rw [hd] at hhead
    simp only [List.headD_cons] at hhead
    rw [List.dropWhile_cons, if_neg (by simp [hhead])]
    rcases hr : (c :: t).reverse with _ | ⟨d, rt⟩
    · exact absurd hr (by simp)
    · rw [hd, hr] at hlast
      simp only [List.headD_cons] at hlast
      rw [List.dropWhile_cons]
      rw [if_neg (by simp [hlast])]
      rw [← hr, List.reverse_reverse, ← hd]

theorem reportUserName_eq_specDisplayName {u : Json} {f l : String}
    (hfj : jsGet (some u) "first_name" = some (Json.str f))
    (hlj : jsGet (some u) "last_name" = some (Json.str l))
    (hf : f ≠ "") (hl : l ≠ "")
    (hfc : ∀ c ∈ f.data, jsWs c = false) (hlc : ∀ c ∈ l.data, jsWs c = false) :
    reportUserName (some u) = specDisplayName (some u) := by
  have hfd : f.data ≠ [] := fun hx => hf (congrArg String.mk hx)
  have hld : l.data ≠ [] := fun hx => hl (congrArg String.mk hx)
  have hub : jsOrString (jsGet (some u) "first_name") "" = f := by
    rw [hfj]
    unfold jsOrString
    rw [if_pos (show jsTruthy (some (Json.str f)) = true by simp [jsTruthy, hf])]
    rfl
  have hlb : jsOrString (jsGet (some u) "last_name") "" = l := by
    rw [hlj]
    unfold jsOrString
    rw [if_pos (show jsTruthy (some (Json.str l)) = true by simp [jsTruthy, hl])]
    rfl
  have htf : jsTrim f = f := by
    apply jsTrim_eq_self hfd
    · rcases hd : f.data with _ | ⟨c, t⟩
      · exact absurd hd hfd
      · simpa using hfc c (by simp [hd])
    · rcases hr : f.data.reverse with _ | ⟨d, rt⟩
      · exact absurd (by simpa using congrArg List.reverse hr) hfd
      · simpa using hfc d (List.mem_reverse.1 (by simp [hr]))
  have htl : jsTrim l = l := by
    apply jsTrim_eq_self hld
    · rcases hd : l.data with _ | ⟨c, t⟩
      · exact absurd hd hld
      · simpa using hlc c (by simp [hd])
    · rcases hr : l.data.reverse with _ | ⟨d, rt⟩
      · exact absurd (by simpa using congrArg List.reverse hr) hld
      · simpa using hlc d (List.mem_reverse.1 (by simp [hr]))
  unfold reportUserName specDisplayName
  rw [hub, hlb, htf, htl, if_neg hf, if_neg hl]
  apply jsTrim_eq_self
  · rcases hd : f.data with _ | ⟨c, t⟩
    · exact absurd hd hfd
    · simp [String.data_append, hd]
  · rcases hd : f.data with _ | ⟨c, t⟩
    · exact absurd hd hfd
    · simp only [String.data_append, hd, List.cons_append, List.headD_cons]
      exact hfc c (by simp [hd])
  · rcases hr : l.data.reverse with _ | ⟨d, rt⟩
    · exact absurd (by simpa using congrArg List.reverse hr) hld
    · simp only [String.data_append, List.reverse_append, hr, List.cons_append,
        List.headD_cons]
      exact hlc d (List.mem_reverse.1 (by simp [hr]))

/-!
## The claims -/

set_option maxRecDepth 1000000
set_option maxHeartbeats 1000000

/-- C1: counterexample — in the end-to-end scenario (shared secret
`TESTSECRET`, pairs id/user/hash), the hash correctly precomputed under
Variant A (signing key = HMAC-SHA256 with literal key `WebAppData` applied
to the shared secret) is carried by `annBlobA`, yet `validateTelegramData`
rejects it: the source derives its signing key as Variant B
(`sha256(BOT_TOKEN)`), so the claimed acceptance fails at this input. -/
theorem C1_variantA_rejected :
    qpGet (parseQS annBlobA) "hash" =
        some (specVariantAHash testToken (qpDelete (parseQS annBlobA) "hash")) ∧
      validateTelegramData testToken annBlobA = none :=
  ⟨rfl, rfl⟩

/-- C1 (amended): with the digest computed as the source computes it
(Variant B, signing key = `sha256` of the shared secret), the end-to-end
scenario verifies to the identity `{id: 42, first_name: "Ann"}`; and every
payload whose hash value differs from that digest — in particular every
single-character alteration of it by a character that keeps the blob's
query-string shape (not one of `&`, `=`, `%`, `+`) — is rejected. -/
theorem C1_variantB_scenario :
    validateTelegramData testToken annBlobB = some annUser ∧
      (∀ h' : String, (∀ c ∈ h'.data, c ≠ '&' ∧ c ≠ '=' ∧ c ≠ '%' ∧ c ≠ '+') →
        h' ≠ annHashB → validateTelegramData testToken (annStem ++ h') = none) ∧
      (∀ (i : Nat) (c : Char), i < 64 → (c ≠ '&' ∧ c ≠ '=' ∧ c ≠ '%' ∧ c ≠ '+') →
        c ≠ annHashB.data.getD i ' ' →
        validateTelegramData testToken (annStem ++ ⟨annHashB.data.set i c⟩) = none) := by
  have key : ∀ h' : String, (∀ c ∈ h'.data, c ≠ '&' ∧ c ≠ '=' ∧ c ≠ '%' ∧ c ≠ '+') →
      h' ≠ annHashB → validateTelegramData testToken (annStem ++ h') = none := by
    intro h' hsafe hne
    have hdata : (annStem ++ h').data = annStem.data ++ h'.data := String.data_append _ _
    have hhead : ∀ rest, (annStem ++ h').data ≠ '?' :: rest := by
      intro rest heq
      rw [hdata, show annStem.data =
        'i' :: "d=123&user=\x7b\"id\":42,\"first_name\":\"Ann\"\x7d&hash=".data from rfl] at heq
      simp at heq
    have hp : parseQS (annStem ++ h') =
        [("id", "123"), ("user", annUserVal), ("hash", h')] := by
      rw [parseQS_eq_parseSegs hhead, hdata]
      exact parseSegs_annStem h' hsafe
    apply validate_of_hash_mismatch
    rw [hp,
        show qpGet [("id", "123"), ("user", annUserVal), ("hash", h')] "hash" =
          some h' from rfl,
        show qpDelete [("id", "123"), ("user", annUserVal), ("hash", h')] "hash" =
          [("id", "123"), ("user", annUserVal)] from rfl,
        show calculatedHash testToken [("id", "123"), ("user", annUserVal)] =
          annHashB from rfl]
    exact fun hx => hne (Option.some.inj hx)
  refine ⟨rfl, key, ?_⟩
  intro i c hi hsafe hne
  apply key
  · intro x hx
    rcases List.mem_or_eq_of_mem_set hx with hx2 | rfl
    · exact (show ∀ y ∈ annHashB.data, y ≠ '&' ∧ y ≠ '=' ∧ y ≠ '%' ∧ y ≠ '+'
        by decide) x hx2
    · exact hsafe
  · intro hx
    have hdataeq : annHashB.data.set i c = annHashB.data := congrArg String.data hx
    have hlen : i < annHashB.data.length := by
      have h64 : annHashB.data.length = 64 := by decide
      omega
    have hc : (annHashB.data.set i c).getD i ' ' = c := by
      simp [List.getD_eq_getElem?_getD, List.getElem?_set_self hlen]
    rw [hdataeq] at hc
    exact hne hc.symm

/-- C1: witness — the amended theorem applied at the concrete scenario and at
the single-character alteration replacing the digest's first character by
`0`. -/
theorem C1_witness :
    validateTelegramData testToken annBlobB = some annUser ∧
      validateTelegramData testToken (annStem ++ ⟨annHashB.data.set 0 '0'⟩) = none :=
  ⟨C1_variantB_scenario.1,
   C1_variantB_scenario.2.2 0 '0' (by omega) (by decide) (by decide)⟩

/-- C2: counterexample — the source sorts the remaining keys with
`a.localeCompare(b)`, which is locale-aware, not byte-wise ordinal: for the
payload with keys `B` and `a`, the string that is HMAC'd is `a=2\nB=1`,
whereas byte-wise ordinal sorting (the claim's ordering) yields `B=1\na=2`. -/
theorem C2_localeCompare_not_ordinal :
    dataCheckString (qpDelete (parseQS "B=1&a=2&hash=x") "hash") = "a=2\nB=1" ∧
      specOrdinalCheckString (qpDelete (parseQS "B=1&a=2&hash=x") "hash") = "B=1\na=2" ∧
      dataCheckString (qpDelete (parseQS "B=1&a=2&hash=x") "hash") ≠
        specOrdinalCheckString (qpDelete (parseQS "B=1&a=2&hash=x") "hash") := by
  refine ⟨rfl, rfl, ?_⟩
  decide

/-- C2 (amended): after removing `hash`, the HMAC'd string is exactly the
pairs rendered `key=value` joined by `'\n'` in the order produced by the
locale-aware `localeCompare` sort (stable, a permutation of the input); when
every key consists only of lowercase ASCII letters and digits, this order
coincides with byte-wise ordinal sorting, so the claim's canonical string is
recovered on such payloads. -/
theorem C2_locale_sort_canonical (params : List (String × String)) :
    (List.Sorted entryLe (sortEntries params) ∧
      List.Perm (sortEntries params) params ∧
      dataCheckString params =
        String.intercalate ("\n") ((sortEntries params).map fun p => p.1 ++ "=" ++ p.2)) ∧
    ((∀ p ∈ params, ∀ c ∈ p.1.data, isLowAlnum c = true) →
      dataCheckString params = specOrdinalCheckString params) :=
  ⟨⟨sortEntries_sorted params, sortEntries_perm params, rfl⟩,
   fun h => dataCheckString_eq_specOrdinal h⟩

/-- C2: witness — the amended theorem's ordinal agreement at the spec's
example keys `{b, a, id}`. -/
theorem C2_witness :
    dataCheckString [("b", "2"), ("a", "1"), ("id", "3")] =
      specOrdinalCheckString [("b", "2"), ("a", "1"), ("id", "3")] :=
  (C2_locale_sort_canonical [("b", "2"), ("a", "1"), ("id", "3")]).2 (by decide)

/-- C3: counterexample — a payload without a `user` key whose signature
verifies correctly is not rejected: `urlParams.get('user') || '{}'` turns
the absent key into the empty JSON object, so `validateTelegramData`
returns `{}` (a truthy value) instead of `null`. -/
theorem C3_absent_user_accepted :
    qpGet (parseQS noUserBlob) "hash" =
        some (calculatedHash testToken (qpDelete (parseQS noUserBlob) "hash")) ∧
      qpGet (qpDelete (parseQS noUserBlob) "hash") "user" = none ∧
      validateTelegramData testToken noUserBlob = some (Json.obj []) :=
  ⟨rfl, rfl, rfl⟩

/-- C3 (amended): for a payload whose signature verifies correctly, a `user`
value that is present, nonempty and not valid JSON is rejected; but an
absent `user` key (or one with the empty-string value) yields the empty
object `{}` rather than rejection. -/
theorem C3_user_handling (tok blob h : String)
    (hh : qpGet (parseQS blob) "hash" = some h)
    (hc : h = calculatedHash tok (qpDelete (parseQS blob) "hash")) :
    (qpGet (qpDelete (parseQS blob) "hash") "user" = none →
        validateTelegramData tok blob = some (Json.obj [])) ∧
    (qpGet (qpDelete (parseQS blob) "hash") "user" = some "" →
        validateTelegramData tok blob = some (Json.obj [])) ∧
    (∀ v, qpGet (qpDelete (parseQS blob) "hash") "user" = some v → v ≠ "" →
        jsonParse v = none → validateTelegramData tok blob = none) :=
  ⟨fun hu => validate_no_user hh hc hu,
   fun hu => validate_empty_user hh hc hu,
   fun v hu hv hj => validate_bad_user hh hc hu hv hj⟩

/-- C3: witness — the amended theorem at a correctly signed payload without
`user` and at one whose `user` value `xyz` is not JSON. -/
theorem C3_witness :
    validateTelegramData testToken noUserBlob = some (Json.obj []) ∧
      validateTelegramData testToken badUserBlob = none :=
  ⟨(C3_user_handling testToken noUserBlob
      "0bc88485043017b400d936d88344e12b1f1fd6f03dedae57846f8a06593c54cf" rfl rfl).1 rfl,
   (C3_user_handling testToken badUserBlob
      "a3c488393f8f3eedd998a7ad65d5594f8142b4520913deb34d638b92d6b9dd24" rfl rfl).2.2
     "xyz" rfl (by decide) rfl⟩

/-- C4: for every payload whose claimed hash equals the digest the source
computes over the remaining pairs (Variant B), and whose `user` value parses
as JSON `j`, `validateTelegramData` succeeds and returns exactly `j`, the
embedded identity, unchanged. -/
theorem C4_valid_signature_returns_identity (tok blob h v : String) (j : Json)
    (hh : qpGet (parseQS blob) "hash" = some h)
    (hc : h = calculatedHash tok (qpDelete (parseQS blob) "hash"))
    (hu : qpGet (qpDelete (parseQS blob) "hash") "user" = some v)
    (hj : jsonParse v = some j) :
    validateTelegramData tok blob = some j :=
  validate_success hh hc hu hj

/-- C4: witness — the theorem at the end-to-end scenario blob, returning the
embedded identity `{id: 42, first_name: "Ann"}`. -/
theorem C4_witness : validateTelegramData testToken annBlobB = some annUser :=
  C4_valid_signature_returns_identity testToken annBlobB annHashB annUserVal annUser
    rfl rfl rfl rfl

/-- C5: `validateTelegramData` is total — it always returns either a value or
the single rejection value `null` (`none`), never an exception — and each
failure class returns that same `none`: the empty blob, a missing `hash`
key, a claimed hash differing from the computed digest, and a nonempty
`user` value that is not valid JSON. -/
theorem C5_uniform_rejection (tok blob : String) :
    (validateTelegramData tok blob = none ∨
      ∃ u, validateTelegramData tok blob = some u) ∧
    (blob = "" → validateTelegramData tok blob = none) ∧
    (qpGet (parseQS blob) "hash" = none → validateTelegramData tok blob = none) ∧
    (qpGet (parseQS blob) "hash" ≠
        some (calculatedHash tok (qpDelete (parseQS blob) "hash")) →
      validateTelegramData tok blob = none) ∧
    (∀ v, qpGet (qpDelete (parseQS blob) "hash") "user" = some v → v ≠ "" →
      jsonParse v = none → validateTelegramData tok blob = none) := by
  refine ⟨?_, ?_, validate_missing_hash, validate_of_hash_mismatch, ?_⟩
  · cases validateTelegramData tok blob with
    | none => exact Or.inl rfl
    | some u => exact Or.inr ⟨u, rfl⟩
  · rintro rfl
    rfl
  · intro v hu hv hj
    by_cases hm : qpGet (parseQS blob) "hash" =
        some (calculatedHash tok (qpDelete (parseQS blob) "hash"))
    · exact validate_bad_user hm rfl hu hv hj
    · exact validate_of_hash_mismatch hm

/-- C5: witness — the uniform rejection at an empty blob, a blob with no
`hash` key, and a correctly signed blob with a non-JSON `user` value. -/
theorem C5_witness :
    validateTelegramData testToken "" = none ∧
      validateTelegramData testToken "id=1" = none ∧
      validateTelegramData testToken badUserBlob = none :=
  ⟨(C5_uniform_rejection testToken "").2.1 rfl,
   (C5_uniform_rejection testToken "id=1").2.2.1 rfl,
   (C5_uniform_rejection testToken badUserBlob).2.2.2.2 "xyz" rfl (by decide) rfl⟩

/-- C6: counterexample — two blobs holding the same set of pairs in different
orders need not produce the same canonical string: with the duplicate key
`a`, the stable sort keys only on the pair's name, so `a=1&a=2` canonicalizes
to `a=1\na=2` but `a=2&a=1` to `a=2\na=1`, and the computed digests differ
too. -/
theorem C6_duplicate_keys_order_sensitive :
    List.Perm (parseQS dupBlob1) (parseQS dupBlob2) ∧
      dataCheckString (qpDelete (parseQS dupBlob1) "hash") ≠
        dataCheckString (qpDelete (parseQS dupBlob2) "hash") ∧
      calculatedHash testToken (qpDelete (parseQS dupBlob1) "hash") ≠
        calculatedHash testToken (qpDelete (parseQS dupBlob2) "hash") := by
  refine ⟨by decide, by decide, ?_⟩
  decide

/-- C6 (amended): for payloads with pairwise-distinct keys, the digest is
invariant under permutation of the input pairs: two blobs whose entry lists
are permutations of each other, with no duplicated key, produce the same
canonical string and hence the same computed hash. -/
theorem C6_perm_invariance_nodup (tok b1 b2 : String)
    (hp : List.Perm (parseQS b1) (parseQS b2))
    (hnd : ((parseQS b1).map Prod.fst).Nodup) :
    dataCheckString (qpDelete (parseQS b1) "hash") =
        dataCheckString (qpDelete (parseQS b2) "hash") ∧
      calculatedHash tok (qpDelete (parseQS b1) "hash") =
        calculatedHash tok (qpDelete (parseQS b2) "hash") := by
  have hperm : List.Perm (qpDelete (parseQS b1) "hash")
      (qpDelete (parseQS b2) "hash") := by
    unfold qpDelete
    exact hp.filter _
  have hnd1 : ((qpDelete (parseQS b1) "hash").map Prod.fst).Nodup := by
    unfold qpDelete
    exact hnd.sublist ((List.filter_sublist _).map Prod.fst)
  have hdcs : dataCheckString (qpDelete (parseQS b1) "hash") =
      dataCheckString (qpDelete (parseQS b2) "hash") := by
    unfold dataCheckString
    rw [sortEntries_eq_of_perm hperm hnd1]
  refine ⟨hdcs, ?_⟩
  unfold calculatedHash
  rw [hdcs]

/-- C6: witness — permutation invariance at the distinct-key blobs
`a=1&b=2` and `b=2&a=1`. -/
theorem C6_witness :
    dataCheckString (qpDelete (parseQS "a=1&b=2") "hash") =
      dataCheckString (qpDelete (parseQS "b=2&a=1") "hash") :=
  (C6_perm_invariance_nodup testToken "a=1&b=2" "b=2&a=1" (by decide) (by decide)).1

/-- C7: the verifier is a pure, deterministic function of (shared secret,
payload blob): in any sequence of calls, the result at each position is the
function of that call's own arguments alone — independent of all earlier and
later calls — so two calls on the same arguments, in any two call
sequences, agree. -/
theorem C7_pure_deterministic (pre1 post1 pre2 post2 : List (String × String))
    (tok blob : String) :
    (runVerifierCalls (pre1 ++ (tok, blob) :: post1)).getD pre1.length none =
        validateTelegramData tok blob ∧
      (runVerifierCalls (pre1 ++ (tok, blob) :: post1)).getD pre1.length none =
        (runVerifierCalls (pre2 ++ (tok, blob) :: post2)).getD pre2.length none := by
  have key : ∀ pre post : List (String × String),
      (runVerifierCalls (pre ++ (tok, blob) :: post)).getD pre.length none =
        validateTelegramData tok blob := by
    intro pre post
    induction pre with
    | nil => rfl
    | cons x t ih => simpa [runVerifierCalls] using ih
  exact ⟨key pre1 post1, (key pre1 post1).trans (key pre2 post2).symm⟩

/-- C8: the `/api/is-admin` handler grants administrative privilege exactly
when the verified identity's `id`, converted to a string, is contained in the
configured administrator list; concretely, identity `{id: 42}` is granted
under admin set `{"42"}` and denied under `{"7"}`, while authentication still
succeeds (the response is `ok: true` with a boolean `is_admin`). -/
theorem C8_admin_gating (adminIds : List String) (tok blob : String) (u : Json)
    (hv : validateTelegramData tok blob = some u) (ht : jsTruthy (some u) = true) :
    isAdminEndpoint tok adminIds blob =
        .valid (adminIds.contains (jsToString (jsGet (some u) "id"))) ∧
      isAdminEndpoint testToken ["42"] id42Blob = .valid true ∧
      isAdminEndpoint testToken ["7"] id42Blob = .valid false := by
  refine ⟨?_, rfl, rfl⟩
  unfold isAdminEndpoint
  rw [hv, ht]
  rfl

/-- C8: witness — the characterization applied at the concrete signed payload
with identity `{id: 42}`. -/
theorem C8_witness :
    isAdminEndpoint testToken ["42"] id42Blob =
      .valid ((["42"] : List String).contains (jsToString (jsGet (some id42User) "id"))) :=
  (C8_admin_gating ["42"] testToken id42Blob id42User rfl rfl).1

/-- C9: counterexample — the stored `user_name` is
`` `${first_name || ''} ${last_name || ''}`.trim() ``, which differs from
trimming each component and joining with a single space when a component
carries edge whitespace: for the verified identity with `first_name`
`"Ann "` the record stores `"Ann  Smith"` (two spaces), not the claim's
`"Ann Smith"`. -/
theorem C9_edge_whitespace_name :
    validateTelegramData testToken edgeNameBlob = some edgeUser ∧
      objGet (mkReport (some edgeUser) "DEF-1" none none none none none
          "2024-01-01T00:00:00.000Z" []) "user_name" = some (Json.str "Ann  Smith") ∧
      specDisplayName (some edgeUser) = "Ann Smith" ∧
      ("Ann  Smith" : String) ≠ "Ann Smith" := by
  refine ⟨rfl, rfl, rfl, ?_⟩
  decide

/-- C9 (amended): for every report built after successful verification, the
stored `user_name` equals the code's formula — the whole-string trim of
`first_name`, a space, and `last_name` (falsy components defaulting to the
empty string) — and `user_id` equals the identity's `id` value unchanged;
when both names are present, nonempty and free of whitespace, this agrees
with the claim's trim-each-and-join display name. -/
theorem C9_user_name_formula (tok blob : String) (u : Json)
    (hv : validateTelegramData tok blob = some u) (ht : jsTruthy (some u) = true)
    (rid : String) (title description park station incidentAt : Option Json)
    (nowIso : String) (urls : List Json) :
    (objGet (mkReport (some u) rid title description park station incidentAt nowIso urls)
        "user_name" =
          some (Json.str (jsTrim (jsOrString (jsGet (some u) "first_name") "" ++ " " ++
            jsOrString (jsGet (some u) "last_name") ""))) ∧
      objGet (mkReport (some u) rid title description park station incidentAt nowIso urls)
        "user_id" = jsGet (some u) "id") ∧
    (∀ f l : String, jsGet (some u) "first_name" = some (Json.str f) →
      jsGet (some u) "last_name" = some (Json.str l) → f ≠ "" → l ≠ "" →
      (∀ c ∈ f.data, jsWs c = false) → (∀ c ∈ l.data, jsWs c = false) →
      reportUserName (some u) = specDisplayName (some u)) :=
  ⟨⟨rfl, rfl⟩, fun _ _ hfj hlj hf hl hfc hlc =>
    reportUserName_eq_specDisplayName hfj hlj hf hl hfc hlc⟩

/-- C9: witness — the amended theorem at the verified identity
`{id: 5, first_name: "Bob", last_name: "Lee"}`, whose clean names make the
code's formula and the spec's display name agree. -/
theorem C9_witness :
    objGet (mkReport (some bobUser) "DEF-2" none none none none none
        "2024-01-01T00:00:00.000Z" []) "user_id" = jsGet (some bobUser) "id" ∧
      reportUserName (some bobUser) = specDisplayName (some bobUser) :=
  ⟨(C9_user_name_formula testToken bobBlob bobUser rfl rfl "DEF-2" none none none none
      none "2024-01-01T00:00:00.000Z" []).1.2,
   (C9_user_name_formula testToken bobBlob bobUser rfl rfl "DEF-2" none none none none
      none "2024-01-01T00:00:00.000Z" []).2 "Bob" "Lee" rfl rfl (by decide) (by decide)
     (by decide) (by decide)⟩

/-- C10: for an update request by an authenticated administrator naming an
existing report id, the handler replaces exactly the first report whose `id`
matches: the stored list keeps its length, every other index is unchanged,
the matched index is the least matching one, and of the updated report only
`title` (when supplied), `description` (when supplied) and `updated_at` can
differ — every other field reads the same as before. -/
theorem C10_put_frame (tok : String) (adminIds : List String) (blob pid : String)
    (title description : Option Json) (reports : List Obj) (nowIso : String)
    (u : Json) (idx : Nat)
    (hv : validateTelegramData tok blob = some u) (ht : jsTruthy (some u) = true)
    (ha : isAdminUser adminIds (some u) = true)
    (hidx : findIdxO (fun r => isIdMatch r pid) reports = some idx) :
    (putReportHandler tok adminIds blob pid title description reports nowIso).2 =
        reports.set idx (updateReportObj (reports.getD idx []) title description nowIso) ∧
      (putReportHandler tok adminIds blob pid title description reports nowIso).1 =
        .updated ∧
      (reports.set idx
        (updateReportObj (reports.getD idx []) title description nowIso)).length =
          reports.length ∧
      (∀ j, j ≠ idx →
        (reports.set idx
          (updateReportObj (reports.getD idx []) title description nowIso)).getD j [] =
            reports.getD j []) ∧
      idx < reports.length ∧
      isIdMatch (reports.getD idx []) pid = true ∧
      (∀ j, j < idx → isIdMatch (reports.getD j []) pid = false) ∧
      (∀ k, k ≠ "title" → k ≠ "description" → k ≠ "updated_at" →
        objGet (updateReportObj (reports.getD idx []) title description nowIso) k =
          objGet (reports.getD idx []) k) := by
  have hres : putReportHandler tok adminIds blob pid title description reports nowIso =
      (.updated,
       reports.set idx (updateReportObj (reports.getD idx []) title description nowIso)) := by
    unfold putReportHandler
    rw [hv, ht, ha, hidx]
    rfl
  obtain ⟨hlt, hmatch, hfirst⟩ := findIdxO_spec (fun r => isIdMatch r pid) reports idx [] hidx
  refine ⟨by rw [hres], by rw [hres], by simp, ?_, hlt, hmatch, hfirst,
    fun k h1 h2 h3 => updateReportObj_frame _ title description nowIso k h1 h2 h3⟩
  intro j hj
  simp [List.getD_eq_getElem?_getD, List.getElem?_set_ne (Ne.symm hj)]

/-- C10: witness — the frame property at a concrete store of two reports,
updating the title of `DEF-2` as the authenticated administrator `42`. -/
theorem C10_witness :
    (putReportHandler testToken ["42"] id42Blob "DEF-2" (some (Json.str "new")) none
        [demoReport1, demoReport2] "2024-01-02T00:00:00.000Z").2 =
      [demoReport1, demoReport2].set 1
        (updateReportObj ([demoReport1, demoReport2].getD 1 []) (some (Json.str "new"))
          none "2024-01-02T00:00:00.000Z") :=
  (C10_put_frame testToken ["42"] id42Blob "DEF-2" (some (Json.str "new")) none
    [demoReport1, demoReport2] "2024-01-02T00:00:00.000Z" id42User 1 rfl rfl rfl rfl).1

end SSK
